import Mathlib

/-!
Verification development for the rmerger repository (Redis RDB v6 merger).

The Rust source is shallowly embedded:
* bytes are `Nat` (each input byte is `< 256`; slices are `List Nat`);
* the zero-copy parse tree of `src/parser.rs` keeps, as in the source, both
  the decoded interpretation and the exact source byte slice of every node;
* the nom parser combinators become functions `List Nat → Option (α × List Nat)`
  returning the parsed value and the unconsumed rest (`none` covers both nom
  `Error` and `Incomplete`);
* the `RDBSer` serializers become functions producing the written byte list
  (the returned `usize` count is the list length);
* Rust strings are modeled by their UTF-8 byte sequences
  (`String::from_utf8_lossy` is the identity on the valid/ASCII data used here);
* machine-integer overflow is explicit: the `i32` fold uses `% 2 ^ 32`, and a
  `usize` subtraction underflow or a `Vec` index out of bounds in the LZF
  decoder is modeled as the distinguished outcome `LzfResult.crash`
  (an overflow-checked build panics at the subtraction; an unchecked build
  panics at the subsequent out-of-bounds `out[j]` for the inputs considered);
* the stateful `PartRDB` of `src/file.rs` becomes a pure state-passing model:
  its `HashMap`s are association lists, its `HashSet`s are duplicate-free
  lists, and the per-database intermediate files on disk are carried in the
  state as `disk : List (Nat × List Nat)`; the `Path::is_dir` probe of
  `PartRDB::new` is passed in as a boolean.
-/

namespace RMerger

/-! ## Data model (src/parser.rs lines 10-101) -/

/-- EncodedLength: `I(u32, &[u8])` or `S(u8, &[u8])`; the slice is the source bytes. -/
inductive EncodedLength where
  | I : Nat → List Nat → EncodedLength
  | S : Nat → List Nat → EncodedLength
  deriving DecidableEq

/-- EncodedString: Raw, Int, or Lzf, each carrying its length prefix(es) and payload. -/
inductive EncodedString where
  | Raw : EncodedLength → List Nat → EncodedString
  | Int : EncodedLength → List Nat → EncodedString
  | Lzf : EncodedLength → EncodedLength → EncodedLength → List Nat → EncodedString
  deriving DecidableEq

/-- EncodedList(EncodedLength, Vec-of-EncodedString). -/
structure EncodedList where
  len : EncodedLength
  elems : List EncodedString
  deriving DecidableEq

/-- EncodedSet(EncodedLength, Vec-of-EncodedString). -/
structure EncodedSet where
  len : EncodedLength
  elems : List EncodedString
  deriving DecidableEq

/-- EncodedSortedset: length plus (member, score-length byte, score bytes) triples. -/
structure EncodedSortedset where
  len : EncodedLength
  elems : List (EncodedString × Nat × List Nat)
  deriving DecidableEq

/-- EncodedHashmap: length plus (key, value) pairs. -/
structure EncodedHashmap where
  len : EncodedLength
  elems : List (EncodedString × EncodedString)
  deriving DecidableEq

/-- EncodedZiplist: a single opaque EncodedString. -/
structure EncodedZiplist where
  payload : EncodedString
  deriving DecidableEq

/-- EncodedIntset: a single opaque EncodedString. -/
structure EncodedIntset where
  payload : EncodedString
  deriving DecidableEq

/-- EncodedSortedsetZiplist: a single opaque EncodedString. -/
structure EncodedSortedsetZiplist where
  payload : EncodedString
  deriving DecidableEq

/-- EncodedHashmapZiplist: a single opaque EncodedString. -/
structure EncodedHashmapZiplist where
  payload : EncodedString
  deriving DecidableEq

/-- EncodedValue: the nine value-type variants V0-V4 and VA-VD. -/
inductive EncodedValue where
  | V0 : EncodedString → EncodedValue
  | V1 : EncodedList → EncodedValue
  | V2 : EncodedSet → EncodedValue
  | V3 : EncodedSortedset → EncodedValue
  | V4 : EncodedHashmap → EncodedValue
  | VA : EncodedZiplist → EncodedValue
  | VB : EncodedIntset → EncodedValue
  | VC : EncodedSortedsetZiplist → EncodedValue
  | VD : EncodedHashmapZiplist → EncodedValue
  deriving DecidableEq

/-- ExpiryTime: milliseconds (8 source bytes) or seconds (4 source bytes). -/
inductive ExpiryTime where
  | MilliSec : List Nat → ExpiryTime
  | Sec : List Nat → ExpiryTime
  deriving DecidableEq

/-- Record(key, value, optional expiry). -/
structure Record where
  key : EncodedString
  value : EncodedValue
  expiry : Option ExpiryTime
  deriving DecidableEq

/-- DatabaseNumber(length encoding, decoded u32). -/
structure DatabaseNumber where
  enc : EncodedLength
  num : Nat
  deriving DecidableEq

/-- Database(DatabaseNumber, Vec-of-Record). -/
structure Database where
  num : DatabaseNumber
  records : List Record
  deriving DecidableEq

/-- RDBVersion: the 4 version bytes following the `REDIS` magic. -/
structure RDBVersion where
  bytes : List Nat
  deriving DecidableEq

/-- Checksum: 8 opaque bytes. -/
structure Checksum where
  bytes : List Nat
  deriving DecidableEq

/-- RDB(version, databases, optional checksum). -/
structure RDB where
  version : RDBVersion
  databases : List Database
  checksum : Option Checksum
  deriving DecidableEq

/-- impl From-EncodedLength for u32: `I n` gives `n`, the `S` variant gives `0`. -/
def u32from : EncodedLength → Nat
  | .I n _ => n
  | .S _ _ => 0

/-! ## Serializers (`impl RDBSer`, src/parser.rs lines 167-400) -/

/-- EncodedLength serializes as its stored source slice, verbatim. -/
def serEncodedLength : EncodedLength → List Nat
  | .I _ s => s
  | .S _ s => s

/-- EncodedString serializes its length prefix(es) then the payload, verbatim. -/
def serEncodedString : EncodedString → List Nat
  | .Raw s v => serEncodedLength s ++ v
  | .Int s v => serEncodedLength s ++ v
  | .Lzf s t u v =>
      serEncodedLength s ++ serEncodedLength t ++ serEncodedLength u ++ v

/-- EncodedList: length prefix then each element. -/
def serEncodedList (x : EncodedList) : List Nat :=
  serEncodedLength x.len ++ (x.elems.map serEncodedString).flatten

/-- EncodedSet: length prefix then each element. -/
def serEncodedSet (x : EncodedSet) : List Nat :=
  serEncodedLength x.len ++ (x.elems.map serEncodedString).flatten

/-- EncodedSortedset: length prefix then member, score-length byte, score bytes. -/
def serEncodedSortedset (x : EncodedSortedset) : List Nat :=
  serEncodedLength x.len ++
    (x.elems.map (fun e => serEncodedString e.1 ++ e.2.1 :: e.2.2)).flatten

/-- EncodedHashmap: length prefix then each key/value pair. -/
def serEncodedHashmap (x : EncodedHashmap) : List Nat :=
  serEncodedLength x.len ++
    (x.elems.map (fun e => serEncodedString e.1 ++ serEncodedString e.2)).flatten

/-- ExpiryTime: marker byte 0xFC or 0xFD, then the stored bytes. -/
def serExpiryTime : ExpiryTime → List Nat
  | .MilliSec v => 0xfc :: v
  | .Sec v => 0xfd :: v

/-- Record serialization writes the expiry first, when present. -/
def serExpiryOpt : Option ExpiryTime → List Nat
  | none => []
  | some e => serExpiryTime e

/-- The canonical value-type byte written for each EncodedValue variant. -/
def vtBits : EncodedValue → Nat
  | .V0 _ => 0x00
  | .V1 _ => 0x01
  | .V2 _ => 0x02
  | .V3 _ => 0x03
  | .V4 _ => 0x04
  | .VA _ => 0x0a
  | .VB _ => 0x0b
  | .VC _ => 0x0c
  | .VD _ => 0x0d

/-- The value body without the value-type byte. -/
def serValueBody : EncodedValue → List Nat
  | .V0 v => serEncodedString v
  | .V1 v => serEncodedList v
  | .V2 v => serEncodedSet v
  | .V3 v => serEncodedSortedset v
  | .V4 v => serEncodedHashmap v
  | .VA v => serEncodedString v.payload
  | .VB v => serEncodedString v.payload
  | .VC v => serEncodedString v.payload
  | .VD v => serEncodedString v.payload

/-- Record: expiry (if any), the canonical value-type byte, the key, the value body. -/
def serRecord (r : Record) : List Nat :=
  serExpiryOpt r.expiry ++ vtBits r.value :: (serEncodedString r.key ++ serValueBody r.value)

/-- DatabaseNumber: marker 0xFE then the length encoding. -/
def serDatabaseNumber (d : DatabaseNumber) : List Nat :=
  0xfe :: serEncodedLength d.enc

/-- Database: its number then each record. -/
def serDatabase (d : Database) : List Nat :=
  serDatabaseNumber d.num ++ (d.records.map serRecord).flatten

/-- RDBVersion: the literal `REDIS` then the 4 version bytes. -/
def serRDBVersion (v : RDBVersion) : List Nat :=
  [0x52, 0x45, 0x44, 0x49, 0x53] ++ v.bytes

/-- Checksum serializes verbatim. -/
def serChecksum (c : Checksum) : List Nat :=
  c.bytes

/-- RDB: version, databases, 0xFF terminator, optional checksum. -/
def serRDB (r : RDB) : List Nat :=
  serRDBVersion r.version ++ (r.databases.map serDatabase).flatten ++ [0xff] ++
    (match r.checksum with
     | none => []
     | some cs => serChecksum cs)

/-! ## Parser combinators (src/parser.rs lines 403-618) -/

/-- A parser consumes a prefix of the byte list; `none` is a parse failure. -/
abbrev Parser (α : Type) := List Nat → Option (α × List Nat)

/-- nom take: exactly n bytes. -/
def takeP (n : Nat) : Parser (List Nat) := fun l =>
  if n ≤ l.length then some (l.take n, l.drop n) else none

/-- nom tag: the exact byte sequence `bs`. -/
def tagP (bs : List Nat) : Parser (List Nat) := fun l =>
  if l.take bs.length = bs then some (bs, l.drop bs.length) else none

/-- nom be_u16 of two bytes. -/
def beU16 (b0 b1 : Nat) : Nat := b0 <<< 8 ||| b1

/-- nom be_u32 of four bytes. -/
def beU32 (b0 b1 b2 b3 : Nat) : Nat :=
  ((b0 <<< 8 ||| b1) <<< 8 ||| b2) <<< 8 ||| b3

/-- encoded_length: dispatch on the top two bits of the first byte; the stored
slice is the peeked 1/2/5-byte prefix. -/
def encodedLengthP : Parser EncodedLength
  | [] => none
  | b :: rest =>
    match b >>> 6 with
    | 0 => some (.I (b &&& 63) [b], rest)
    | 1 =>
      match rest with
      | b1 :: rest2 => some (.I (beU16 b b1 &&& 0x3fff) [b, b1], rest2)
      | _ => none
    | 2 =>
      match rest with
      | b1 :: b2 :: b3 :: b4 :: rest2 =>
        some (.I (beU32 b1 b2 b3 b4) [b, b1, b2, b3, b4], rest2)
      | _ => none
    | 3 => some (.S (b &&& 63) [b], rest)
    | _ => none

/-- encoded_string: a length, then raw payload, 1/2/4-byte integer payload, or
the LZF triple (compressed length, uncompressed length, compressed payload). -/
def encodedStringP : Parser EncodedString := fun l =>
  match encodedLengthP l with
  | none => none
  | some (s, l1) =>
    match s with
    | .I n _ =>
      match takeP n l1 with
      | none => none
      | some (v, l2) => some (.Raw s v, l2)
    | .S 0 _ =>
      match takeP 1 l1 with
      | none => none
      | some (v, l2) => some (.Int s v, l2)
    | .S 1 _ =>
      match takeP 2 l1 with
      | none => none
      | some (v, l2) => some (.Int s v, l2)
    | .S 2 _ =>
      match takeP 4 l1 with
      | none => none
      | some (v, l2) => some (.Int s v, l2)
    | .S 3 _ =>
      match encodedLengthP l1 with
      | none => none
      | some (t, l2) =>
        match encodedLengthP l2 with
        | none => none
        | some (u, l3) =>
          match takeP (u32from t) l3 with
          | none => none
          | some (v, l4) => some (.Lzf s t u v, l4)
    | .S _ _ => none

/-- nom count: exactly n repetitions. -/
def countP (p : Parser α) : Nat → Parser (List α)
  | 0 => fun l => some ([], l)
  | n + 1 => fun l =>
    match p l with
    | none => none
    | some (a, l1) =>
      match countP p n l1 with
      | none => none
      | some (xs, l2) => some (a :: xs, l2)

/-- encoded_sequence: a length then that many encoded strings. -/
def encodedSequenceP : Parser (EncodedLength × List EncodedString) := fun l =>
  match encodedLengthP l with
  | none => none
  | some (s, l1) =>
    match countP encodedStringP (u32from s) l1 with
    | none => none
    | some (v, l2) => some ((s, v), l2)

/-- encoded_list. -/
def encodedListP : Parser EncodedList := fun l =>
  match encodedSequenceP l with
  | none => none
  | some ((s, v), l1) => some (⟨s, v⟩, l1)

/-- encoded_set. -/
def encodedSetP : Parser EncodedSet := fun l =>
  match encodedSequenceP l with
  | none => none
  | some ((s, v), l1) => some (⟨s, v⟩, l1)

/-- one sorted-set entry: member string, score-length byte, score bytes. -/
def sortedsetEntryP : Parser (EncodedString × Nat × List Nat) := fun l =>
  match encodedStringP l with
  | none => none
  | some (w, l1) =>
    match l1 with
    | [] => none
    | u :: l2 =>
      match takeP u l2 with
      | none => none
      | some (f, l3) => some ((w, u, f), l3)

/-- encoded_sortedset. -/
def encodedSortedsetP : Parser EncodedSortedset := fun l =>
  match encodedLengthP l with
  | none => none
  | some (s, l1) =>
    match countP sortedsetEntryP (u32from s) l1 with
    | none => none
    | some (v, l2) => some (⟨s, v⟩, l2)

/-- one hashmap entry: key string then value string. -/
def hashEntryP : Parser (EncodedString × EncodedString) := fun l =>
  match encodedStringP l with
  | none => none
  | some (k, la) =>
    match encodedStringP la with
    | none => none
    | some (v, lb) => some ((k, v), lb)

/-- encoded_hash. -/
def encodedHashP : Parser EncodedHashmap := fun l =>
  match encodedLengthP l with
  | none => none
  | some (s, l1) =>
    match countP hashEntryP (u32from s) l1 with
    | none => none
    | some (t, l2) => some (⟨s, t⟩, l2)

/-- expiry_time_msec: 0xFC then 8 bytes. -/
def expiryTimeMsecP : Parser ExpiryTime := fun l =>
  match tagP [0xfc] l with
  | none => none
  | some (_, l1) =>
    match takeP 8 l1 with
    | none => none
    | some (e, l2) => some (.MilliSec e, l2)

/-- expiry_time_sec: 0xFD then 4 bytes. -/
def expiryTimeSecP : Parser ExpiryTime := fun l =>
  match tagP [0xfd] l with
  | none => none
  | some (_, l1) =>
    match takeP 4 l1 with
    | none => none
    | some (e, l2) => some (.Sec e, l2)

/-- alt of the two expiry parsers. -/
def expiryAltP : Parser ExpiryTime := fun l =>
  match expiryTimeMsecP l with
  | some r => some r
  | none => expiryTimeSecP l

/-- value_type: one byte whose top bit must be 0; the remaining 7 bits are
truncated by `ValueType::from_bits_truncate` to the union of the flag bits,
which is 0x0F. -/
def valueTypeP : Parser Nat := fun l =>
  match l with
  | b :: rest => if b &&& 0x80 = 0 then some ((b &&& 0x7f) &&& 0x0f, rest) else none
  | [] => none

/-- the switch dispatching a value-type to its value parser. -/
def valueBodyP : Nat → Parser EncodedValue
  | 0x00 => fun l =>
    match encodedStringP l with
    | none => none
    | some (v, l1) => some (.V0 v, l1)
  | 0x01 => fun l =>
    match encodedListP l with
    | none => none
    | some (v, l1) => some (.V1 v, l1)
  | 0x02 => fun l =>
    match encodedSetP l with
    | none => none
    | some (v, l1) => some (.V2 v, l1)
  | 0x03 => fun l =>
    match encodedSortedsetP l with
    | none => none
    | some (v, l1) => some (.V3 v, l1)
  | 0x04 => fun l =>
    match encodedHashP l with
    | none => none
    | some (v, l1) => some (.V4 v, l1)
  | 0x0a => fun l =>
    match encodedStringP l with
    | none => none
    | some (v, l1) => some (.VA ⟨v⟩, l1)
  | 0x0b => fun l =>
    match encodedStringP l with
    | none => none
    | some (v, l1) => some (.VB ⟨v⟩, l1)
  | 0x0c => fun l =>
    match encodedStringP l with
    | none => none
    | some (v, l1) => some (.VC ⟨v⟩, l1)
  | 0x0d => fun l =>
    match encodedStringP l with
    | none => none
    | some (v, l1) => some (.VD ⟨v⟩, l1)
  | _ => fun _ => none

/-- record, generic in the value-type byte parser (the source instantiates it
with `valueTypeP`; the strict variant below is used to state the amended
round-trip property): optional expiry, value-type, key, value. -/
def recordPGen (vt : Parser Nat) : Parser Record := fun l =>
  match (match expiryAltP l with
         | some (e, la) => (some e, la)
         | none => (none, l) : Option ExpiryTime × List Nat) with
  | (o, l1) =>
    match vt l1 with
    | none => none
    | some (t, l2) =>
      match encodedStringP l2 with
      | none => none
      | some (k, l3) =>
        match valueBodyP t l3 with
        | none => none
        | some (v, l4) => some ({ key := k, value := v, expiry := o }, l4)

/-- the record parser of the source. -/
def recordP : Parser Record := recordPGen valueTypeP

/-- nom many0 with explicit fuel; stops when the sub-parser fails or makes no
progress. -/
def many0A (p : Parser α) : Nat → List Nat → List α × List Nat
  | 0, l => ([], l)
  | fuel + 1, l =>
    match p l with
    | some (a, l1) =>
      if l1.length < l.length then
        match many0A p fuel l1 with
        | (xs, r) => (a :: xs, r)
      else ([], l)
    | none => ([], l)

/-- nom many0: zero or more repetitions. -/
def many0P (p : Parser α) (l : List Nat) : List α × List Nat :=
  many0A p l.length l

/-- database_number: 0xFE then a length encoding. -/
def databaseNumberP : Parser DatabaseNumber := fun l =>
  match tagP [0xfe] l with
  | none => none
  | some (_, l1) =>
    match encodedLengthP l1 with
    | none => none
    | some (n, l2) => some (⟨n, u32from n⟩, l2)

/-- database: a database number then many0 records. -/
def databasePGen (vt : Parser Nat) : Parser Database := fun l =>
  match databaseNumberP l with
  | none => none
  | some (n, l1) =>
    match many0P (recordPGen vt) l1 with
    | (rs, l2) => some (⟨n, rs⟩, l2)

/-- the database parser of the source. -/
def databaseP : Parser Database := databasePGen valueTypeP

/-- rdb_version: the literal `REDIS` then 4 bytes. -/
def rdbVersionP : Parser RDBVersion := fun l =>
  match tagP [0x52, 0x45, 0x44, 0x49, 0x53] l with
  | none => none
  | some (_, l1) =>
    match takeP 4 l1 with
    | none => none
    | some (v, l2) => some (⟨v⟩, l2)

/-- checksum: 8 bytes. -/
def checksumP : Parser Checksum := fun l =>
  match takeP 8 l with
  | none => none
  | some (v, l1) => some (⟨v⟩, l1)

/-- eof: succeeds only on empty input. -/
def eofP : Parser Unit := fun l =>
  match l with
  | [] => some ((), [])
  | _ => none

/-- rdb: version, many0 databases, 0xFF, optional checksum, eof. -/
def rdbPGen (vt : Parser Nat) : Parser RDB := fun l =>
  match rdbVersionP l with
  | none => none
  | some (v, l1) =>
    match many0P (databasePGen vt) l1 with
    | (ds, l2) =>
      match tagP [0xff] l2 with
      | none => none
      | some (_, l3) =>
        match (match checksumP l3 with
               | some (cs, lc) => (some cs, lc)
               | none => (none, l3) : Option Checksum × List Nat) with
        | (c, l4) =>
          match eofP l4 with
          | none => none
          | some (_, l5) => some ({ version := v, databases := ds, checksum := c }, l5)

/-- the top-level rdb parser of the source. -/
def rdbP : Parser RDB := rdbPGen valueTypeP

/-- Strict value-type byte parser: accepts exactly the nine canonical bytes
(the set the specification asserts). It is used to state the amended
round-trip claim; `valueTypeP` above is what the source does. -/
def valueTypeStrictP : Parser Nat := fun l =>
  match l with
  | b :: rest =>
    if b ∈ [0x00, 0x01, 0x02, 0x03, 0x04, 0x0a, 0x0b, 0x0c, 0x0d] then some (b, rest)
    else none
  | [] => none

/-- the rdb parser restricted to canonical value-type bytes. -/
def rdbStrictP : Parser RDB := rdbPGen valueTypeStrictP

/-! ## LZF decoder and String::decode (src/parser.rs lines 119-165) -/

/-- Outcome of the LZF decode loop: a decoded byte string, the
`failed to decode LZF` IO error raised by `assert_result!`, or a panic
(arithmetic underflow of the `usize` back-reference start, or the
unchecked `out[j]` read going out of bounds). -/
inductive LzfResult where
  | ok : List Nat → LzfResult
  | decodeErr : LzfResult
  | crash : LzfResult
  deriving DecidableEq

/-- The back-reference copy loop: append `out[j]`, `out[j+1]`, ... one byte at
a time (the source region may overlap the freshly written destination);
`none` is the out-of-bounds panic of `out[j]`. -/
def lzfCopy (out : List Nat) (j : Nat) : Nat → Option (List Nat)
  | 0 => some out
  | n + 1 =>
    if h : j < out.length then lzfCopy (out ++ [out.get ⟨j, h⟩]) (j + 1) n
    else none

/-- The control-byte scan loop of `String::decode` for the Lzf variant.
Fuel is the remaining input length at the outermost call; every iteration
consumes at least one input byte, so the fuel never runs out when started
with `fuel = input.length` (that branch returns `crash` and is unreachable
from `decodeLzfBytes`). -/
def lzfLoopF : Nat → List Nat → List Nat → LzfResult
  | _, out, [] => .ok out
  | 0, _, _ :: _ => .crash
  | fuel + 1, out, ctrl :: rest =>
    if ctrl < 32 then
      if ctrl + 1 ≤ rest.length then
        lzfLoopF fuel (out ++ rest.take (ctrl + 1)) (rest.drop (ctrl + 1))
      else .decodeErr
    else
      match (if ctrl >>> 5 = 7 then
               match rest with
               | [] => none
               | ext :: rest2 => some (ctrl >>> 5 + (ext + 2), rest2)
             else some (ctrl >>> 5, rest) : Option (Nat × List Nat)) with
      | none => .decodeErr
      | some (len, rest2) =>
        match rest2 with
        | [] => .decodeErr
        | b2 :: rest3 =>
          let off := ((ctrl &&& 0x1f) <<< 8) + b2 + 1
          if off ≤ out.length then
            match lzfCopy out (out.length - off) len with
            | some out2 => lzfLoopF fuel out2 rest3
            | none => .crash
          else .crash

/-- LZF decompression of a compressed payload. -/
def decodeLzfBytes (l : List Nat) : LzfResult :=
  lzfLoopF l.length [] l

/-- The `i32` fold of the Int arm: `a << 8 | byte` on a 32-bit pattern. -/
def i32FoldBits (bytes : List Nat) : Nat :=
  bytes.foldl (fun a j => ((a <<< 8) % 2 ^ 32) ||| j) 0

/-- Interpret a 32-bit pattern as a signed integer. -/
def i32AsInt (p : Nat) : Int :=
  if p < 2 ^ 31 then (p : Int) else (p : Int) - 2 ^ 32

/-- Decimal digit bytes of a natural number, most significant first. -/
def natDecimalBytes (n : Nat) : List Nat :=
  (Nat.toDigits 10 n).map Char.toNat

/-- Decimal rendering of an integer as ASCII bytes, as `to_string` does. -/
def intDecimalBytes (i : Int) : List Nat :=
  if i < 0 then 45 :: natDecimalBytes i.natAbs else natDecimalBytes i.natAbs

/-- String::decode on an EncodedString: raw bytes verbatim, integer payloads
folded big-endian into an `i32` and rendered in decimal, LZF payloads
decompressed. Strings are modeled by their byte sequences. -/
def stringDecode : EncodedString → LzfResult
  | .Raw _ r => .ok r
  | .Int _ i => .ok (intDecimalBytes (i32AsInt (i32FoldBits i)))
  | .Lzf _ _ _ l => decodeLzfBytes l

/-! ## The partition-and-merge controller (src/file.rs) -/

/-- EncodedStringVec: the lifetime-erased key form used for duplicate
checking; it keeps the variant tag and the payload bytes only. -/
inductive EncodedStringVec where
  | Raw : List Nat → EncodedStringVec
  | Int : List Nat → EncodedStringVec
  | Lzf : List Nat → EncodedStringVec
  deriving DecidableEq

/-- impl From-EncodedString for EncodedStringVec: drop the length prefixes,
keep the payload bytes. -/
def EncodedStringVec.fromEncoded : EncodedString → EncodedStringVec
  | .Raw _ v => .Raw v
  | .Int _ v => .Int v
  | .Lzf _ _ _ v => .Lzf v

/-- Association-list lookup, modeling HashMap::get. -/
def lookupA : List (Nat × α) → Nat → Option α
  | [], _ => none
  | (k, v) :: rest, n => if k = n then some v else lookupA rest n

/-- Association-list update/insert, modeling HashMap::insert. -/
def setA : List (Nat × α) → Nat → α → List (Nat × α)
  | [], n, v => [(n, v)]
  | (k, w) :: rest, n, v =>
    if k = n then (n, v) :: rest else (k, w) :: setA rest n v

/-- HashSet::insert on a duplicate-free list model. -/
def insertKey (k : EncodedStringVec) (ks : List EncodedStringVec) :
    List EncodedStringVec :=
  if k ∈ ks then ks else k :: ks

/-- The state of `PartRDB`: the flag, the set of database numbers with an
open intermediate file handle, the on-disk contents of each intermediate
file `PART_<db>.rdb` (keyed by database number), and the per-database key
sets. -/
structure PartRDB where
  check_duplication : Bool
  files : List Nat
  disk : List (Nat × List Nat)
  keys : List (Nat × List EncodedStringVec)
  deriving DecidableEq

/-- Error of `PartRDB::new`: ErrorKind::NotFound when the output path is not
an existing directory. -/
inductive StoreErr where
  | directoryMissing
  deriving DecidableEq

/-- PartRDB::new: probe `Path::is_dir` (passed here as a boolean), fail with
NotFound when it does not hold, otherwise return a fresh store with empty
maps; no file is created. -/
def PartRDB.new (outputDirIsDir : Bool) (check_duplication : Bool) :
    Except StoreErr PartRDB :=
  if outputDirIsDir then
    .ok { check_duplication := check_duplication, files := [], disk := [], keys := [] }
  else
    .error .directoryMissing

/-- First stage of PartRDB::write: if no intermediate file handle exists for
the database number, create the file (truncating) with the serialized
database header and register the handle. -/
def writeInitFile (s : PartRDB) (dbNum : DatabaseNumber) : PartRDB :=
  if dbNum.num ∈ s.files then s
  else { s with
         files := dbNum.num :: s.files,
         disk := setA s.disk dbNum.num (serDatabaseNumber dbNum) }

/-- Second stage of PartRDB::write: ensure a key set exists for the database
number. -/
def writeInitKeys (s : PartRDB) (num : Nat) : PartRDB :=
  if (lookupA s.keys num).isSome then s
  else { s with keys := setA s.keys num [] }

/-- Third stage of PartRDB::write: serialize the record into the
intermediate file and insert its EncodedStringVec key, unless duplicate
checking is on and the key was already seen (discard, leaving the state
unchanged). -/
def writeCommit (s2 : PartRDB) (num : Nat) (record : Record) : PartRDB :=
  if s2.check_duplication = false ∨
      EncodedStringVec.fromEncoded record.key ∉ (lookupA s2.keys num).getD [] then
    { s2 with
      disk := setA s2.disk num ((lookupA s2.disk num).getD [] ++ serRecord record),
      keys := setA s2.keys num
        (insertKey (EncodedStringVec.fromEncoded record.key)
          ((lookupA s2.keys num).getD [])) }
  else s2

/-- PartRDB::write: the three stages in order. -/
def PartRDB.write (s : PartRDB) (dbNum : DatabaseNumber) (record : Record) :
    PartRDB :=
  writeCommit (writeInitKeys (writeInitFile s dbNum) dbNum.num) dbNum.num record

/-- PartRDB::close_part_files: drop every open handle; disk contents and key
sets remain. -/
def PartRDB.close_part_files (s : PartRDB) : PartRDB :=
  { s with files := [] }

/-- Collect, in key-map iteration order, the on-disk contents of each
database's intermediate file; `none` when one is missing. -/
def partsConcat (ks : List (Nat × List EncodedStringVec))
    (disk : List (Nat × List Nat)) : Option (List (List Nat)) :=
  match ks with
  | [] => some []
  | (num, _) :: rest =>
    match lookupA disk num with
    | none => none
    | some bytes =>
      match partsConcat rest disk with
      | none => none
      | some more => some (bytes :: more)

/-- The version written by merge: `0006`. -/
def mergeVersion : RDBVersion := ⟨[0x30, 0x30, 0x30, 0x36]⟩

/-- PartRDB::merge: write the RDB header, then each known database's
intermediate file contents verbatim, then 0xFF, then 8 zero bytes; return
the output bytes together with the reported byte count. -/
def PartRDB.merge (s : PartRDB) : Option (List Nat × Nat) :=
  match partsConcat s.keys s.disk with
  | none => none
  | some parts =>
    some (serRDBVersion mergeVersion ++ parts.flatten ++ [0xff] ++ List.replicate 8 0,
      (serRDBVersion mergeVersion).length + (parts.map List.length).sum + 1 + 8)

/-- A sequence of writes applied in order. -/
def PartRDB.applyWrites (s : PartRDB) : List (DatabaseNumber × Record) → PartRDB
  | [] => s
  | (d, r) :: ops => PartRDB.applyWrites (s.write d r) ops

/-- The four big-endian bytes of a 32-bit value. -/
def be32Bytes (n : Nat) : List Nat :=
  [(n >>> 24) &&& 0xff, (n >>> 16) &&& 0xff, (n >>> 8) &&& 0xff, n &&& 0xff]

/-! ## Concrete values used to instantiate the claims -/

/-- Database number 0 with its one-byte encoding. -/
def dbn0 : DatabaseNumber := ⟨.I 0 [0x00], 0⟩

/-- A raw one-byte key `a`. -/
def kRaw : EncodedString := .Raw (.I 1 [0x01]) [0x61]

/-- An LZF-compressed key whose plaintext is `a` (payload: literal run of 1). -/
def kLzf : EncodedString := .Lzf (.S 3 [0xc3]) (.I 2 [0x02]) (.I 1 [0x01]) [0x00, 0x61]

/-- A one-byte string value `1`. -/
def val1 : EncodedValue := .V0 (.Raw (.I 1 [0x01]) [0x31])

/-- A record with the raw key. -/
def recRaw : Record := ⟨kRaw, val1, none⟩

/-- A record with the LZF key. -/
def recLzf : Record := ⟨kLzf, val1, none⟩

/-- A fresh store with duplicate checking enabled. -/
def freshStore : PartRDB := ⟨true, [], [], []⟩

/-- A record parsed from `01 30` (key `0`) and `01 31` (value `1`). -/
def rec01 : Record := ⟨.Raw (.I 1 [0x01]) [0x30], .V0 (.Raw (.I 1 [0x01]) [0x31]), none⟩

/-- An RDB input whose single record carries the non-canonical value-type
byte 0x10 (accepted and truncated to 0x00 by the parser). -/
def c1exBytes : List Nat :=
  [0x52, 0x45, 0x44, 0x49, 0x53, 0x30, 0x30, 0x30, 0x36,
   0xfe, 0x00, 0x10, 0x01, 0x30, 0x01, 0x31, 0xff]

/-- The same input with the canonical value-type byte 0x00. -/
def c1okBytes : List Nat :=
  [0x52, 0x45, 0x44, 0x49, 0x53, 0x30, 0x30, 0x30, 0x36,
   0xfe, 0x00, 0x00, 0x01, 0x30, 0x01, 0x31, 0xff]

/-- The parse tree of both inputs above. -/
def c1exTree : RDB := ⟨⟨[0x30, 0x30, 0x30, 0x36]⟩, [⟨dbn0, [rec01]⟩], none⟩

/-- The 14-byte compressed payload of the LZF test vector. -/
def lzfVecPayload : List Nat :=
  [0x01, 0x61, 0x61, 0xe0, 0x05, 0x00, 0x00, 0x31, 0xe0, 0x05, 0x0e, 0x01, 0x61, 0x61]

/-- The full compressed-string wrapper of the LZF test vector. -/
def lzfVecBytes : List Nat := [0xc3, 0x0e, 0x21] ++ lzfVecPayload

/-- The parsed node of the LZF test vector. -/
def lzfVecNode : EncodedString :=
  .Lzf (.S 3 [0xc3]) (.I 14 [0x0e]) (.I 33 [0x21]) lzfVecPayload

/-- The expected plaintext: 16 a, then 1, then 16 a. -/
def lzfVecPlain : List Nat :=
  List.replicate 16 0x61 ++ [0x31] ++ List.replicate 16 0x61

/-- Record bytes with a millisecond expiry prefix. -/
def c8bytes : List Nat :=
  [0xfc, 1, 2, 3, 4, 5, 6, 7, 8, 0x00, 0x01, 0x30, 0x01, 0x31]

/-- The record parsed from `c8bytes`. -/
def c8rec : Record :=
  ⟨.Raw (.I 1 [0x01]) [0x30], .V0 (.Raw (.I 1 [0x01]) [0x31]),
   some (.MilliSec [1, 2, 3, 4, 5, 6, 7, 8])⟩

/-- A store state with one database and one written record, used to
instantiate the merge claim. -/
def c7store : PartRDB :=
  ⟨true, [0], [(0, serDatabaseNumber dbn0 ++ serRecord recRaw)],
   [(0, [.Raw [0x61]])]⟩

/-- Shape of an intermediate file: a serialized database header followed by
a run of serialized records. -/
def PartFileShaped (bytes : List Nat) : Prop :=
  ∃ (dbn : DatabaseNumber) (recs : List Record),
    bytes = serDatabaseNumber dbn ++ (recs.map serRecord).flatten

/-- Invariant of reachable store states: every open handle has an on-disk
file, and every on-disk file is a header followed by records. -/
def StoreInv (s : PartRDB) : Prop :=
  (∀ num, num ∈ s.files → (lookupA s.disk num).isSome = true) ∧
  (∀ num bytes, lookupA s.disk num = some bytes → PartFileShaped bytes)

/-! ## Arithmetic helpers for the length encoding -/

theorem nat_and_two_pow_sub_one (n k : Nat) : n &&& (2 ^ k - 1) = n % 2 ^ k := by
  apply Nat.eq_of_testBit_eq
  intro i
  simp [Nat.testBit_and, Nat.testBit_two_pow_sub_one, Nat.testBit_mod_two_pow,
    Bool.and_comm]

theorem nat_and_63 (n : Nat) : n &&& 63 = n % 64 :=
  nat_and_two_pow_sub_one n 6

theorem nat_and_255 (n : Nat) : n &&& 255 = n % 256 :=
  nat_and_two_pow_sub_one n 8

theorem nat_and_16383 (n : Nat) : n &&& 16383 = n % 16384 :=
  nat_and_two_pow_sub_one n 14

theorem nat_shiftRight_div (n k : Nat) : n >>> k = n / 2 ^ k :=
  Nat.shiftRight_eq_div_pow n k

theorem lor_shl_add (a b k : Nat) (h : b < 2 ^ k) : a <<< k ||| b = 2 ^ k * a + b := by
  apply Nat.eq_of_testBit_eq
  intro i
  rw [Nat.testBit_lor, Nat.testBit_mul_pow_two_add a h, Nat.testBit_shiftLeft]
  rcases Nat.lt_or_ge i k with hi | hi
  · simp [hi, Nat.not_le_of_lt hi]
  · simp [hi, Nat.not_lt_of_le hi,
      Nat.testBit_lt_two_pow (Nat.lt_of_lt_of_le h (Nat.pow_le_pow_right (by norm_num) hi))]

theorem lor_64_add (x : Nat) (h : x < 64) : 64 ||| x = 64 + x := by
  have h2 := lor_shl_add 1 x 6 h
  norm_num [Nat.shiftLeft_eq] at h2
  exact h2

/-! ## Round-trip lemmas: parse-then-serialize is the consumed slice -/

theorem takeP_rt {n : Nat} {l s r : List Nat} (h : takeP n l = some (s, r)) :
    s ++ r = l ∧ s.length = n := by
  unfold takeP at h
  split at h
  · cases h
    exact ⟨List.take_append_drop n l, by simp; omega⟩
  · cases h

theorem tagP_rt {bs l s r : List Nat} (h : tagP bs l = some (s, r)) :
    s = bs ∧ bs ++ r = l := by
  unfold tagP at h
  split at h
  · cases h
    constructor
    · rfl
    · calc bs ++ l.drop bs.length = l.take bs.length ++ l.drop bs.length := by
            rw [(by assumption : l.take bs.length = bs)]
        _ = l := List.take_append_drop _ _
  · cases h

theorem encodedLengthP_rt {l : List Nat} {e : EncodedLength} {r : List Nat}
    (h : encodedLengthP l = some (e, r)) : serEncodedLength e ++ r = l := by
  cases l with
  | nil => cases h
  | cons b rest =>
    simp only [encodedLengthP] at h
    split at h
    · cases h; rfl
    · split at h
      · cases h; rfl
      · cases h
    · split at h
      · cases h; rfl
      · cases h
    · cases h; rfl
    · cases h

theorem encodedStringP_rt {l : List Nat} {e : EncodedString} {r : List Nat}
    (h : encodedStringP l = some (e, r)) : serEncodedString e ++ r = l := by
  unfold encodedStringP at h
  split at h
  · cases h
  · rename_i s l1 hlen
    split at h
    · split at h
      · cases h
      · rename_i n src v l2 htake
        cases h
        simp only [serEncodedString]
        rw [List.append_assoc, (takeP_rt htake).1, encodedLengthP_rt hlen]
    · split at h
      · cases h
      · rename_i src v l2 htake
        cases h
        simp only [serEncodedString]
        rw [List.append_assoc, (takeP_rt htake).1, encodedLengthP_rt hlen]
    · split at h
      · cases h
      · rename_i src v l2 htake
        cases h
        simp only [serEncodedString]
        rw [List.append_assoc, (takeP_rt htake).1, encodedLengthP_rt hlen]
    · split at h
      · cases h
      · rename_i src v l2 htake
        cases h
        simp only [serEncodedString]
        rw [List.append_assoc, (takeP_rt htake).1, encodedLengthP_rt hlen]
    · split at h
      · cases h
      · rename_i src t l2 ht
        split at h
        · cases h
        · rename_i u l3 hu
          split at h
          · cases h
          · rename_i v l4 htake
            cases h
            simp only [serEncodedString]
            rw [List.append_assoc, List.append_assoc, List.append_assoc,
              (takeP_rt htake).1, encodedLengthP_rt hu, encodedLengthP_rt ht,
              encodedLengthP_rt hlen]
    · cases h

theorem countP_rt {p : Parser α} {serA : α → List Nat}
    (hp : ∀ {l a r}, p l = some (a, r) → serA a ++ r = l) :
    ∀ {n l xs r}, countP p n l = some (xs, r) → (xs.map serA).flatten ++ r = l := by
  intro n
  induction n with
  | zero =>
    intro l xs r h
    simp only [countP] at h
    cases h
    simp
  | succ m ih =>
    intro l xs r h
    simp only [countP] at h
    split at h
    · cases h
    · rename_i a l1 ha
      split at h
      · cases h
      · rename_i ys l2 hys
        cases h
        simp only [List.map_cons, List.flatten_cons, List.append_assoc]
        rw [ih hys, hp ha]

theorem hashEntryP_rt {l : List Nat} {e : EncodedString × EncodedString}
    {r : List Nat} (h : hashEntryP l = some (e, r)) :
    (serEncodedString e.1 ++ serEncodedString e.2) ++ r = l := by
  unfold hashEntryP at h
  split at h
  · cases h
  · rename_i k la hk
    split at h
    · cases h
    · rename_i v lb hv
      cases h
      rw [List.append_assoc, encodedStringP_rt hv, encodedStringP_rt hk]

theorem sortedsetEntryP_rt {l : List Nat} {e : EncodedString × Nat × List Nat}
    {r : List Nat} (h : sortedsetEntryP l = some (e, r)) :
    (serEncodedString e.1 ++ e.2.1 :: e.2.2) ++ r = l := by
  unfold sortedsetEntryP at h
  split at h
  · cases h
  · rename_i w l1 hw
    split at h
    · cases h
    · rename_i u l2
      split at h
      · cases h
      · rename_i f l3 hf
        cases h
        have := (takeP_rt hf).1
        rw [List.append_assoc]
        simp only [List.cons_append]
        rw [this, encodedStringP_rt hw]

theorem encodedListP_rt {l : List Nat} {x : EncodedList} {r : List Nat}
    (h : encodedListP l = some (x, r)) : serEncodedList x ++ r = l := by
  unfold encodedListP encodedSequenceP at h
  split at h
  · cases h
  · rename_i y hy
    split at hy
    · cases hy
    · rename_i s l1 hs
      split at hy
      · cases hy
      · rename_i v l2 hv
        cases hy
        cases h
        simp only [serEncodedList, List.append_assoc]
        rw [countP_rt (fun {l a r} ha => encodedStringP_rt ha) hv,
          encodedLengthP_rt hs]

theorem encodedSetP_rt {l : List Nat} {x : EncodedSet} {r : List Nat}
    (h : encodedSetP l = some (x, r)) : serEncodedSet x ++ r = l := by
  unfold encodedSetP encodedSequenceP at h
  split at h
  · cases h
  · rename_i y hy
    split at hy
    · cases hy
    · rename_i s l1 hs
      split at hy
      · cases hy
      · rename_i v l2 hv
        cases hy
        cases h
        simp only [serEncodedSet, List.append_assoc]
        rw [countP_rt (fun {l a r} ha => encodedStringP_rt ha) hv,
          encodedLengthP_rt hs]

theorem encodedSortedsetP_rt {l : List Nat} {x : EncodedSortedset} {r : List Nat}
    (h : encodedSortedsetP l = some (x, r)) : serEncodedSortedset x ++ r = l := by
  unfold encodedSortedsetP at h
  split at h
  · cases h
  · rename_i s l1 hs
    split at h
    · cases h
    · rename_i v l2 hv
      cases h
      simp only [serEncodedSortedset, List.append_assoc]
      rw [countP_rt (fun {l a r} ha => sortedsetEntryP_rt ha) hv,
        encodedLengthP_rt hs]

theorem encodedHashP_rt {l : List Nat} {x : EncodedHashmap} {r : List Nat}
    (h : encodedHashP l = some (x, r)) : serEncodedHashmap x ++ r = l := by
  unfold encodedHashP at h
  split at h
  · cases h
  · rename_i s l1 hs
    split at h
    · cases h
    · rename_i v l2 hv
      cases h
      simp only [serEncodedHashmap, List.append_assoc]
      rw [countP_rt (fun {l a r} ha => hashEntryP_rt ha) hv,
        encodedLengthP_rt hs]

theorem expiryAltP_rt {l : List Nat} {e : ExpiryTime} {r : List Nat}
    (h : expiryAltP l = some (e, r)) : serExpiryTime e ++ r = l := by
  unfold expiryAltP at h
  split at h
  · rename_i res hms
    cases h
    unfold expiryTimeMsecP at hms
    split at hms
    · cases hms
    · rename_i s l1 htag
      split at hms
      · cases hms
      · rename_i v l2 htake
        cases hms
        simp only [serExpiryTime]
        have h1 := (tagP_rt htag).2
        have h2 := (takeP_rt htake).1
        rw [← h1, ← h2]
        rfl
  · rename_i hms
    unfold expiryTimeSecP at h
    split at h
    · cases h
    · rename_i s l1 htag
      split at h
      · cases h
      · rename_i v l2 htake
        cases h
        simp only [serExpiryTime]
        have h1 := (tagP_rt htag).2
        have h2 := (takeP_rt htake).1
        rw [← h1, ← h2]
        rfl

theorem valueBodyP_rt {t : Nat} {l : List Nat} {v : EncodedValue} {r : List Nat}
    (h : valueBodyP t l = some (v, r)) :
    vtBits v = t ∧ serValueBody v ++ r = l := by
  match t with
  | 0x00 =>
    simp only [valueBodyP] at h
    split at h
    · cases h
    · rename_i w l1 hw
      cases h
      exact ⟨rfl, encodedStringP_rt hw⟩
  | 0x01 =>
    simp only [valueBodyP] at h
    split at h
    · cases h
    · rename_i w l1 hw
      cases h
      exact ⟨rfl, encodedListP_rt hw⟩
  | 0x02 =>
    simp only [valueBodyP] at h
    split at h
    · cases h
    · rename_i w l1 hw
      cases h
      exact ⟨rfl, encodedSetP_rt hw⟩
  | 0x03 =>
    simp only [valueBodyP] at h
    split at h
    · cases h
    · rename_i w l1 hw
      cases h
      exact ⟨rfl, encodedSortedsetP_rt hw⟩
  | 0x04 =>
    simp only [valueBodyP] at h
    split at h
    · cases h
    · rename_i w l1 hw
      cases h
      exact ⟨rfl, encodedHashP_rt hw⟩
  | 0x0a =>
    simp only [valueBodyP] at h
    split at h
    · cases h
    · rename_i w l1 hw
      cases h
      exact ⟨rfl, encodedStringP_rt hw⟩
  | 0x0b =>
    simp only [valueBodyP] at h
    split at h
    · cases h
    · rename_i w l1 hw
      cases h
      exact ⟨rfl, encodedStringP_rt hw⟩
  | 0x0c =>
    simp only [valueBodyP] at h
    split at h
    · cases h
    · rename_i w l1 hw
      cases h
      exact ⟨rfl, encodedStringP_rt hw⟩
  | 0x0d =>
    simp only [valueBodyP] at h
    split at h
    · cases h
    · rename_i w l1 hw
      cases h
      exact ⟨rfl, encodedStringP_rt hw⟩
  | 0x05 => cases h
  | 0x06 => cases h
  | 0x07 => cases h
  | 0x08 => cases h
  | 0x09 => cases h
  | n + 14 => cases h

theorem valueTypeStrictP_char {l : List Nat} {t : Nat} {r : List Nat}
    (h : valueTypeStrictP l = some (t, r)) :
    l = t :: r ∧ t ∈ [0x00, 0x01, 0x02, 0x03, 0x04, 0x0a, 0x0b, 0x0c, 0x0d] := by
  cases l with
  | nil => cases h
  | cons b rest =>
    simp only [valueTypeStrictP] at h
    split at h
    · cases h
      exact ⟨rfl, by assumption⟩
    · cases h

theorem valueTypeP_char {l : List Nat} {t : Nat} {r : List Nat}
    (h : valueTypeP l = some (t, r)) :
    ∃ tb, l = tb :: r ∧ t = (tb &&& 0x7f) &&& 0x0f ∧ tb &&& 0x80 = 0 := by
  cases l with
  | nil => cases h
  | cons b rest =>
    simp only [valueTypeP] at h
    split at h
    · cases h
      exact ⟨b, rfl, rfl, by assumption⟩
    · cases h

theorem recordPGen_shape {vt : Parser Nat}
    (hvt : ∀ {l t r}, vt l = some (t, r) → ∃ tb, l = tb :: r)
    {l : List Nat} {rec : Record} {rest : List Nat}
    (h : recordPGen vt l = some (rec, rest)) :
    ∃ tb,
      l = serExpiryOpt rec.expiry ++
            tb :: (serEncodedString rec.key ++ (serValueBody rec.value ++ rest)) ∧
      vt (tb :: (serEncodedString rec.key ++ (serValueBody rec.value ++ rest))) =
        some (vtBits rec.value,
              serEncodedString rec.key ++ (serValueBody rec.value ++ rest)) := by
  unfold recordPGen at h
  split at h
  rename_i o l1 hstep
  split at h
  · cases h
  · rename_i t l2 ht
    split at h
    · cases h
    · rename_i k l3 hk
      split at h
      · cases h
      · rename_i v l4 hv
        cases h
        obtain ⟨tb, hl1⟩ := hvt ht
        obtain ⟨hvt_bits, hser_v⟩ := valueBodyP_rt hv
        have hl2 : l2 = serEncodedString k ++ (serValueBody v ++ rest) := by
          rw [hser_v, encodedStringP_rt hk]
        have hexp : l = serExpiryOpt o ++ l1 := by
          split at hstep
          · rename_i e la he
            cases hstep
            simp only [serExpiryOpt]
            exact (expiryAltP_rt he).symm
          · cases hstep
            simp [serExpiryOpt]
        refine ⟨tb, ?_, ?_⟩
        · show l = serExpiryOpt o ++
            tb :: (serEncodedString k ++ (serValueBody v ++ rest))
          rw [hexp, hl1, hl2]
        · show vt (tb :: (serEncodedString k ++ (serValueBody v ++ rest))) =
            some (vtBits v, serEncodedString k ++ (serValueBody v ++ rest))
          rw [hl1, hl2, ← hvt_bits] at ht
          exact ht

theorem many0A_rt {p : Parser α} {serA : α → List Nat}
    (hp : ∀ {l a r}, p l = some (a, r) → serA a ++ r = l) :
    ∀ {fuel l xs r}, many0A p fuel l = (xs, r) → (xs.map serA).flatten ++ r = l := by
  intro fuel
  induction fuel with
  | zero =>
    intro l xs r h
    simp only [many0A] at h
    cases h
    simp
  | succ m ih =>
    intro l xs r h
    simp only [many0A] at h
    split at h
    · rename_i a l1 ha
      split at h
      · cases h
        simp only [List.map_cons, List.flatten_cons, List.append_assoc]
        rw [@ih l1 (many0A p m l1).1 (many0A p m l1).2 rfl, hp ha]
      · cases h
        simp
    · cases h
      simp

theorem databaseNumberP_rt {l : List Nat} {d : DatabaseNumber} {r : List Nat}
    (h : databaseNumberP l = some (d, r)) : serDatabaseNumber d ++ r = l := by
  unfold databaseNumberP at h
  split at h
  · cases h
  · rename_i s l1 htag
    split at h
    · cases h
    · rename_i n l2 hn
      cases h
      simp only [serDatabaseNumber]
      have h1 := (tagP_rt htag).2
      have h2 := encodedLengthP_rt hn
      rw [← h1, ← h2]
      rfl

theorem databasePGen_rt {vt : Parser Nat}
    (hrec : ∀ {l rec rest}, recordPGen vt l = some (rec, rest) →
      serRecord rec ++ rest = l)
    {l : List Nat} {d : Database} {r : List Nat}
    (h : databasePGen vt l = some (d, r)) : serDatabase d ++ r = l := by
  unfold databasePGen at h
  split at h
  · cases h
  · rename_i n l1 hn
    split at h
    rename_i rs l2 hrs
    cases h
    simp only [serDatabase, List.append_assoc]
    rw [many0A_rt (fun {l a r} ha => hrec ha) hrs, databaseNumberP_rt hn]

theorem rdbVersionP_rt {l : List Nat} {v : RDBVersion} {r : List Nat}
    (h : rdbVersionP l = some (v, r)) : serRDBVersion v ++ r = l := by
  unfold rdbVersionP at h
  split at h
  · cases h
  · rename_i s l1 htag
    split at h
    · cases h
    · rename_i w l2 htake
      cases h
      simp only [serRDBVersion]
      have h1 := (tagP_rt htag).2
      have h2 := (takeP_rt htake).1
      rw [List.append_assoc, h2, h1]

theorem rdbPGen_rt {vt : Parser Nat}
    (hrec : ∀ {l rec rest}, recordPGen vt l = some (rec, rest) →
      serRecord rec ++ rest = l)
    {l : List Nat} {x : RDB} {r : List Nat}
    (h : rdbPGen vt l = some (x, r)) : serRDB x ++ r = l := by
  unfold rdbPGen at h
  split at h
  · cases h
  · rename_i v l1 hv
    split at h
    rename_i ds l2 hds
    split at h
    · cases h
    · rename_i s l3 hff
      split at h
      rename_i c l4 hstep
      split at h
      · cases h
      · rename_i u l5 heof
        have heof2 : l4 = [] ∧ l5 = [] := by
          cases l4 with
          | nil =>
            simp only [eofP] at heof
            cases heof
            exact ⟨rfl, rfl⟩
          | cons a b => cases heof
        cases h
        have h1 := rdbVersionP_rt hv
        have h2 := many0A_rt (fun {l a r} ha => databasePGen_rt hrec ha) hds
        have h3 := (tagP_rt hff).2
        rcases c with _ | cs
        · have hl3 : l3 = [] := by
            split at hstep
            · cases hstep
            · cases hstep
              exact heof2.1
          rw [← h1, ← h2, ← h3, hl3, heof2.2]
          simp [serRDB]
        · have hcs : serChecksum cs ++ l4 = l3 := by
            split at hstep
            · rename_i cs2 lc hck
              cases hstep
              unfold checksumP at hck
              split at hck
              · cases hck
              · rename_i w lw htake
                cases hck
                simp only [serChecksum]
                exact (takeP_rt htake).1
            · cases hstep
          rw [← h1, ← h2, ← h3, ← hcs, heof2.1, heof2.2]
          simp [serRDB, serChecksum]

theorem recordPStrict_rt {l : List Nat} {rec : Record} {rest : List Nat}
    (h : recordPGen valueTypeStrictP l = some (rec, rest)) :
    serRecord rec ++ rest = l := by
  obtain ⟨tb, hl, hvt⟩ :=
    recordPGen_shape (fun {l t r} ht => ⟨t, (valueTypeStrictP_char ht).1⟩) h
  have htb : tb = vtBits rec.value := by
    have h2 := (valueTypeStrictP_char hvt).1
    injection h2 with h3 h4
  rw [hl, htb]
  simp [serRecord]

/-! ## Bounded byte facts -/

set_option maxRecDepth 4000 in
theorem byte_and_128 : ∀ b < 256, 128 ≤ b → ¬b &&& 0x80 = 0 := by decide

set_option maxRecDepth 4000 in
theorem byte_and_128_lt : ∀ b < 128, b &&& 0x80 = 0 := by decide

set_option maxRecDepth 4000 in
theorem byte_and_127_15 : ∀ b < 256, (b &&& 0x7f) &&& 0x0f = b &&& 0x0f := by decide

/-! ## Claim theorems -/

/-- C6: length-encoding correctness over all values. A 1-byte prefix `n ≤ 63`
decodes to Integer n consuming 1 byte; the 2-byte prefix
`0x40|((n>>8)&0x3F), n&0xFF` decodes to Integer `n ∈ [64, 16383]` consuming
2 bytes; the 5-byte prefix 0x80 followed by big-endian 32-bit `n < 2^32`
decodes to Integer n consuming 5 bytes; prefixes 0xC0..0xC3 decode to
Special variants 0..3 consuming 1 byte. -/
theorem C6_encoded_length :
    (∀ n rest, n ≤ 63 →
      encodedLengthP (n :: rest) = some (.I n [n], rest)) ∧
    (∀ n rest, 64 ≤ n → n ≤ 16383 →
      encodedLengthP ((0x40 ||| ((n >>> 8) &&& 0x3f)) :: (n &&& 0xff) :: rest) =
        some (.I n [0x40 ||| ((n >>> 8) &&& 0x3f), n &&& 0xff], rest)) ∧
    (∀ n rest, n < 2 ^ 32 →
      encodedLengthP (0x80 :: (be32Bytes n ++ rest)) =
        some (.I n (0x80 :: be32Bytes n), rest)) ∧
    (∀ v rest, v < 4 →
      encodedLengthP ((0xc0 + v) :: rest) = some (.S v [0xc0 + v], rest)) := by
  refine ⟨?_, ?_, ?_, ?_⟩
  · intro n rest hn
    have h6 : n >>> 6 = 0 := by
      rw [nat_shiftRight_div]
      omega
    simp only [encodedLengthP, h6]
    rw [nat_and_63, Nat.mod_eq_of_lt (by omega)]
  · intro n rest h1 h2
    have hd : n >>> 8 = n / 256 := by
      rw [nat_shiftRight_div]
      norm_num
    have hdlt : n / 256 < 64 := by omega
    have hm : (n >>> 8) &&& 0x3f = n / 256 := by
      rw [hd, nat_and_63, Nat.mod_eq_of_lt hdlt]
    have hb0 : 0x40 ||| ((n >>> 8) &&& 0x3f) = 64 + n / 256 := by
      rw [hm]
      exact lor_64_add _ hdlt
    have h6 : (0x40 ||| ((n >>> 8) &&& 0x3f)) >>> 6 = 1 := by
      rw [hb0, nat_shiftRight_div]
      omega
    simp only [encodedLengthP, h6]
    have hval : beU16 (0x40 ||| ((n >>> 8) &&& 0x3f)) (n &&& 0xff) &&& 0x3fff = n := by
      unfold beU16
      rw [hb0, nat_and_255,
        lor_shl_add (64 + n / 256) (n % 256) 8 (by omega), nat_and_16383]
      omega
    rw [hval]
  · intro n rest hn
    have h6 : (0x80 : Nat) >>> 6 = 2 := by decide
    simp only [be32Bytes, List.cons_append, List.nil_append]
    simp only [encodedLengthP, h6]
    have hval : beU32 ((n >>> 24) &&& 0xff) ((n >>> 16) &&& 0xff)
        ((n >>> 8) &&& 0xff) (n &&& 0xff) = n := by
      unfold beU32
      rw [nat_shiftRight_div, nat_shiftRight_div, nat_shiftRight_div,
        nat_and_255, nat_and_255, nat_and_255, nat_and_255,
        lor_shl_add _ _ 8 (by omega),
        lor_shl_add _ _ 8 (by omega),
        lor_shl_add _ _ 8 (by omega)]
      omega
    rw [hval]
  · intro v rest hv
    interval_cases v <;> rfl

/-- C6 witness: the four length-prefix forms at concrete inputs. -/
theorem C6_encoded_length_witness :
    encodedLengthP [5, 9] = some (.I 5 [5], [9]) ∧
    encodedLengthP [0x41, 0x2c, 9] = some (.I 300 [0x41, 0x2c], [9]) ∧
    encodedLengthP [0x80, 0x00, 0x01, 0x11, 0x70, 9] =
      some (.I 70000 [0x80, 0x00, 0x01, 0x11, 0x70], [9]) ∧
    encodedLengthP [0xc2, 9] = some (.S 2 [0xc2], [9]) :=
  ⟨C6_encoded_length.1 5 [9] (by decide),
   C6_encoded_length.2.1 300 [9] (by decide) (by decide),
   C6_encoded_length.2.2.1 70000 [9] (by decide),
   C6_encoded_length.2.2.2 2 [9] (by decide)⟩

/-- C3 (amended): the record parser rejects a value-type byte `b` exactly when
its top bit is set; a byte with the top bit clear is truncated to its low
four bits `b &&& 0x0F`, and the record is then accepted exactly when those
low four bits are one of {0x00, 0x01, 0x02, 0x03, 0x04, 0x0A, 0x0B, 0x0C,
0x0D} (so e.g. 0x10 is accepted and parsed as a string record, contrary to
the original claim). -/
theorem C3_value_type_accept :
    (∀ b rest, b < 256 → 128 ≤ b → valueTypeP (b :: rest) = none) ∧
    (∀ b rest, b < 128 → valueTypeP (b :: rest) = some (b &&& 0x0f, rest)) ∧
    (∀ t l v r, valueBodyP t l = some (v, r) →
      t ∈ [0x00, 0x01, 0x02, 0x03, 0x04, 0x0a, 0x0b, 0x0c, 0x0d]) ∧
    (∀ t, t ∈ [0x00, 0x01, 0x02, 0x03, 0x04, 0x0a, 0x0b, 0x0c, 0x0d] →
      (valueBodyP t [0x00]).isSome = true) := by
  refine ⟨?_, ?_, ?_, ?_⟩
  · intro b rest hb h128
    simp only [valueTypeP]
    rw [if_neg (byte_and_128 b hb h128)]
  · intro b rest hb
    simp only [valueTypeP]
    rw [if_pos (byte_and_128_lt b hb), byte_and_127_15 b (by omega)]
  · intro t l v r h
    have hv := (valueBodyP_rt h).1
    subst hv
    cases v <;> simp [vtBits]
  · decide

/-- C3 counterexample: the value-type byte 0x10 is claimed to be a parse
failure, but the record parser accepts it (as a string record). -/
theorem C3_counterexample :
    recordP [0x10, 0x01, 0x30, 0x01, 0x31] = some (rec01, []) := by decide

/-- C3 witness: rejection of a top-bit byte and truncating acceptance of
0x10, at concrete inputs. -/
theorem C3_value_type_accept_witness :
    valueTypeP [0x80, 9] = none ∧ valueTypeP [0x10, 9] = some (0, [9]) :=
  ⟨C3_value_type_accept.1 0x80 [9] (by decide) (by decide),
   C3_value_type_accept.2.1 0x10 [9] (by decide)⟩

/-- C1 (amended): round-trip identity holds for every input accepted with
canonical value-type bytes: the strict parser `rdbStrictP` — identical to
`rdbP` except that its value-type byte must be one of the nine canonical
bytes, a restriction of `valueTypeP` as the first conjunct states — satisfies
parse-then-serialize identity on its full consumed input. For `rdbP` itself
the identity can fail: a record value-type byte with extra high bits (e.g.
0x10) is accepted but re-serialized as its low-nibble truncation, so every
parsed node re-serializes to its source slice except such records. -/
theorem C1_roundtrip_canonical :
    (∀ l t r, valueTypeStrictP l = some (t, r) → valueTypeP l = some (t, r)) ∧
    (∀ b x, rdbStrictP b = some (x, []) → serRDB x = b) := by
  constructor
  · intro l t r h
    obtain ⟨hl, hmem⟩ := valueTypeStrictP_char h
    subst hl
    fin_cases hmem <;> rfl
  · intro b x h
    have := rdbPGen_rt (fun {l rec rest} hr => recordPStrict_rt hr) h
    simpa using this

/-- C1 counterexample: an RDB input that the top-level parser accepts in
full, whose re-serialization differs from the input (the value-type byte
0x10 comes back as 0x00). -/
theorem C1_counterexample :
    rdbP c1exBytes = some (c1exTree, []) ∧ serRDB c1exTree ≠ c1exBytes := by
  constructor
  · decide
  · decide

/-- C1 witness: the canonical variant of the same input round-trips. -/
theorem C1_roundtrip_canonical_witness :
    rdbStrictP c1okBytes = some (c1exTree, []) ∧ serRDB c1exTree = c1okBytes :=
  ⟨by decide, C1_roundtrip_canonical.2 c1okBytes c1exTree (by decide)⟩

/-- Characterization of `valueTypeP` at a cons cell. -/
theorem valueTypeP_cons {tb : Nat} {x : List Nat} {t : Nat} {r : List Nat}
    (h : valueTypeP (tb :: x) = some (t, r)) :
    tb &&& 0x80 = 0 ∧ t = (tb &&& 0x7f) &&& 0x0f ∧ r = x := by
  simp only [valueTypeP] at h
  split at h
  · cases h
    exact ⟨by assumption, rfl, rfl⟩
  · cases h

/-- The expiry alternative consumes 0xFC plus exactly 8 bytes, or 0xFD plus
exactly 4 bytes. -/
theorem expiryAltP_char {l : List Nat} {e : ExpiryTime} {r : List Nat}
    (h : expiryAltP l = some (e, r)) :
    (∃ v, v.length = 8 ∧ e = .MilliSec v ∧ l = 0xfc :: (v ++ r)) ∨
    (∃ v, v.length = 4 ∧ e = .Sec v ∧ l = 0xfd :: (v ++ r)) := by
  unfold expiryAltP at h
  split at h
  · rename_i res hms
    cases h
    left
    unfold expiryTimeMsecP at hms
    split at hms
    · cases hms
    · rename_i s l1 htag
      split at hms
      · cases hms
      · rename_i v l2 htake
        cases hms
        obtain ⟨hvr, hvl⟩ := takeP_rt htake
        have h1 := (tagP_rt htag).2
        refine ⟨v, hvl, rfl, ?_⟩
        rw [← h1, ← hvr]
        rfl
  · rename_i hms
    right
    unfold expiryTimeSecP at h
    split at h
    · cases h
    · rename_i s l1 htag
      split at h
      · cases h
      · rename_i v l2 htake
        cases h
        obtain ⟨hvr, hvl⟩ := takeP_rt htake
        have h1 := (tagP_rt htag).2
        refine ⟨v, hvl, rfl, ?_⟩
        rw [← h1, ← hvr]
        rfl

/-- C8: record framing. Decoding: a parsed record's input splits into its
optional serialized expiry, then one value-type byte (top bit clear, low
nibble the canonical tag of the parsed value), then the key bytes, then the
value-body bytes; the expiry, when present, is 0xFC plus exactly 8 bytes or
0xFD plus exactly 4 bytes. Encoding: a record serializes as expiry first,
then the canonical value-type byte, then the key, then the value body, with
markers 0xFC/0xFD for the expiry. -/
theorem C8_record_framing :
    (∀ l rec rest, recordP l = some (rec, rest) →
      ∃ tb, l = serExpiryOpt rec.expiry ++
              tb :: (serEncodedString rec.key ++ (serValueBody rec.value ++ rest)) ∧
            tb &&& 0x80 = 0 ∧ (tb &&& 0x7f) &&& 0x0f = vtBits rec.value) ∧
    (∀ l e r, expiryAltP l = some (e, r) →
      (∃ v, v.length = 8 ∧ e = .MilliSec v ∧ l = 0xfc :: (v ++ r)) ∨
      (∃ v, v.length = 4 ∧ e = .Sec v ∧ l = 0xfd :: (v ++ r))) ∧
    (∀ rec, serRecord rec = serExpiryOpt rec.expiry ++
      vtBits rec.value :: (serEncodedString rec.key ++ serValueBody rec.value)) ∧
    (∀ v, serExpiryTime (.MilliSec v) = 0xfc :: v) ∧
    (∀ v, serExpiryTime (.Sec v) = 0xfd :: v) := by
  refine ⟨?_, ?_, ?_, ?_, ?_⟩
  · intro l rec rest h
    obtain ⟨tb, hl, hvt⟩ := recordPGen_shape
      (fun {l t r} ht => ⟨(valueTypeP_char ht).choose, (valueTypeP_char ht).choose_spec.1⟩) h
    obtain ⟨h128, hbits, _⟩ := valueTypeP_cons hvt
    exact ⟨tb, hl, h128, hbits.symm⟩
  · intro l e r h
    exact expiryAltP_char h
  · intro rec
    rfl
  · intro v
    rfl
  · intro v
    rfl

/-- C8 witness: the framing at a concrete record with a millisecond expiry. -/
theorem C8_record_framing_witness :
    recordP c8bytes = some (c8rec, []) ∧
    (∃ tb, c8bytes = serExpiryOpt c8rec.expiry ++
             tb :: (serEncodedString c8rec.key ++ (serValueBody c8rec.value ++ [])) ∧
           tb &&& 0x80 = 0 ∧ (tb &&& 0x7f) &&& 0x0f = vtBits c8rec.value) :=
  ⟨by decide, C8_record_framing.1 c8bytes c8rec [] (by decide)⟩

/-! ## LZF decoder lemmas -/

theorem lzfCopy_length :
    ∀ n (out : List Nat) j r, lzfCopy out j n = some r →
      r.length = out.length + n := by
  intro n
  induction n with
  | zero =>
    intro out j r h
    simp only [lzfCopy] at h
    cases h
    simp
  | succ m ih =>
    intro out j r h
    simp only [lzfCopy] at h
    split at h
    · have h2 := ih _ _ _ h
      simp only [List.length_append, List.length_cons, List.length_nil] at h2
      omega
    · cases h

theorem lzfCopy_isSome :
    ∀ n (out : List Nat) j, j < out.length → (lzfCopy out j n).isSome = true := by
  intro n
  induction n with
  | zero =>
    intro out j h
    simp [lzfCopy]
  | succ m ih =>
    intro out j h
    simp only [lzfCopy]
    rw [dif_pos h]
    apply ih
    simp only [List.length_append, List.length_cons, List.length_nil]
    omega

/-- C4: the LZF decoder scans control bytes. A control byte below 0x20 starts
a literal run of ctrl+1 following input bytes; otherwise backref_len is
ctrl>>5, augmented by next_byte+2 when ctrl>>5 is 7; one further input byte
b2 is consumed, and backref_len bytes are appended one at a time starting at
output position out_pos - ((ctrl & 0x1F) << 8) - b2 - 1 (a successful copy of
n bytes grows the output by exactly n). In particular the test-vector payload
decompresses to the 33-character string of 16 a, `1`, 16 a. -/
theorem C4_lzf_decode :
    (∀ fuel (out : List Nat) ctrl rest, ctrl < 32 → ctrl + 1 ≤ rest.length →
      lzfLoopF (fuel + 1) out (ctrl :: rest) =
        lzfLoopF fuel (out ++ rest.take (ctrl + 1)) (rest.drop (ctrl + 1))) ∧
    (∀ fuel (out : List Nat) ctrl b2 rest, 32 ≤ ctrl → ctrl >>> 5 ≠ 7 →
      lzfLoopF (fuel + 1) out (ctrl :: b2 :: rest) =
        (if ((ctrl &&& 0x1f) <<< 8) + b2 + 1 ≤ out.length then
          match lzfCopy out (out.length - (((ctrl &&& 0x1f) <<< 8) + b2 + 1))
              (ctrl >>> 5) with
          | some out2 => lzfLoopF fuel out2 rest
          | none => .crash
        else .crash)) ∧
    (∀ fuel (out : List Nat) ctrl ext b2 rest, 32 ≤ ctrl → ctrl >>> 5 = 7 →
      lzfLoopF (fuel + 1) out (ctrl :: ext :: b2 :: rest) =
        (if ((ctrl &&& 0x1f) <<< 8) + b2 + 1 ≤ out.length then
          match lzfCopy out (out.length - (((ctrl &&& 0x1f) <<< 8) + b2 + 1))
              (ctrl >>> 5 + (ext + 2)) with
          | some out2 => lzfLoopF fuel out2 rest
          | none => .crash
        else .crash)) ∧
    (∀ n (out : List Nat) j r, lzfCopy out j n = some r →
      r.length = out.length + n) ∧
    (stringDecode lzfVecNode = .ok lzfVecPlain ∧
      encodedStringP lzfVecBytes = some (lzfVecNode, [])) := by
  refine ⟨?_, ?_, ?_, lzfCopy_length, by decide, by decide⟩
  · intro fuel out ctrl rest h1 h2
    simp only [lzfLoopF]
    rw [if_pos h1, if_pos h2]
  · intro fuel out ctrl b2 rest h1 h7
    simp only [lzfLoopF]
    rw [if_neg (show ¬ctrl < 32 by omega), if_neg h7]
  · intro fuel out ctrl ext b2 rest h1 h7
    simp only [lzfLoopF]
    rw [if_neg (show ¬ctrl < 32 by omega), if_pos h7]

/-- C4 witness: a literal step and a back-reference step at concrete inputs,
and the concrete test vector via the decoder. -/
theorem C4_lzf_decode_witness :
    lzfLoopF 2 [] [0x01, 0x61, 0x62] = .ok [0x61, 0x62] ∧
    lzfLoopF 1 [0x61, 0x62] [0x40, 0x00] = .ok [0x61, 0x62, 0x62, 0x62] := by
  constructor
  · exact (C4_lzf_decode.1 1 [] 0x01 [0x61, 0x62] (by decide) (by decide)).trans
      (by decide)
  · exact (C4_lzf_decode.2.1 0 [0x61, 0x62] 0x40 0x00 [] (by decide) (by decide)).trans
      (by decide)

/-- C5 (amended): the decoder is total, and the bounds that are checked are
the input-side ones: a literal run, a length-extension byte, or a
back-reference offset byte extending past the end of the payload each return
the DecodeError value. The output-side back-reference bounds are not
checked: a back-reference whose start position underflows (offset larger
than the current output length) panics — modeled as `crash` — instead of
returning DecodeError; and a back-reference copy that starts in bounds never
reads at or past the current output length (the output grows ahead of the
read position), so no further check exists. -/
theorem C5_lzf_bounds :
    (∀ l, decodeLzfBytes l = lzfLoopF l.length [] l) ∧
    (∀ fuel (out : List Nat) ctrl rest, ctrl < 32 → rest.length < ctrl + 1 →
      lzfLoopF (fuel + 1) out (ctrl :: rest) = .decodeErr) ∧
    (∀ fuel (out : List Nat) ctrl, 32 ≤ ctrl →
      lzfLoopF (fuel + 1) out [ctrl] = .decodeErr) ∧
    (∀ fuel (out : List Nat) ctrl ext, 32 ≤ ctrl → ctrl >>> 5 = 7 →
      lzfLoopF (fuel + 1) out [ctrl, ext] = .decodeErr) ∧
    (∀ fuel (out : List Nat) ctrl b2 rest, 32 ≤ ctrl → ctrl >>> 5 ≠ 7 →
      out.length < ((ctrl &&& 0x1f) <<< 8) + b2 + 1 →
      lzfLoopF (fuel + 1) out (ctrl :: b2 :: rest) = .crash) ∧
    (∀ fuel (out : List Nat) ctrl ext b2 rest, 32 ≤ ctrl → ctrl >>> 5 = 7 →
      out.length < ((ctrl &&& 0x1f) <<< 8) + b2 + 1 →
      lzfLoopF (fuel + 1) out (ctrl :: ext :: b2 :: rest) = .crash) ∧
    (∀ n (out : List Nat) j, j < out.length → (lzfCopy out j n).isSome = true) := by
  refine ⟨fun l => rfl, ?_, ?_, ?_, ?_, ?_, lzfCopy_isSome⟩
  · intro fuel out ctrl rest h1 h2
    simp only [lzfLoopF]
    rw [if_pos h1, if_neg (show ¬ctrl + 1 ≤ rest.length by omega)]
  · intro fuel out ctrl h1
    simp only [lzfLoopF]
    rw [if_neg (show ¬ctrl < 32 by omega)]
    split
    · rfl
    · rename_i t l2 heq
      split at heq
      · cases heq
      · cases heq
        rfl
  · intro fuel out ctrl ext h1 h7
    simp only [lzfLoopF]
    rw [if_neg (show ¬ctrl < 32 by omega), if_pos h7]
  · intro fuel out ctrl b2 rest h1 h7 hlen
    simp only [lzfLoopF]
    rw [if_neg (show ¬ctrl < 32 by omega), if_neg h7]
    simp only [if_neg (show ¬(((ctrl &&& 0x1f) <<< 8) + b2 + 1 ≤ out.length) by omega)]
  · intro fuel out ctrl ext b2 rest h1 h7 hlen
    simp only [lzfLoopF]
    rw [if_neg (show ¬ctrl < 32 by omega), if_pos h7]
    simp only [if_neg (show ¬(((ctrl &&& 0x1f) <<< 8) + b2 + 1 ≤ out.length) by omega)]

/-- C5 counterexample: a back-reference whose start underflows (payload
`20 01` at output position 0) panics, which is not the DecodeError value the
claim requires for every out-of-bounds index. -/
theorem C5_counterexample :
    decodeLzfBytes [0x20, 0x01] = .crash ∧ LzfResult.crash ≠ LzfResult.decodeErr := by
  constructor
  · decide
  · decide

/-- C5 witness: a truncated literal gives DecodeError, and an underflowing
back-reference gives a panic, at concrete inputs. -/
theorem C5_lzf_bounds_witness :
    lzfLoopF 1 [] [0x05, 0x61] = .decodeErr ∧
    lzfLoopF 1 [] [0x20, 0x01] = .crash :=
  ⟨C5_lzf_bounds.2.1 0 [] 0x05 [0x61] (by decide) (by decide),
   C5_lzf_bounds.2.2.2.2.1 0 [] 0x20 0x01 [] (by decide) (by decide) (by decide)⟩

/-! ## Association list and key set lemmas -/

theorem lookupA_setA_self (d : List (Nat × α)) (k : Nat) (v : α) :
    lookupA (setA d k v) k = some v := by
  induction d with
  | nil => simp [setA, lookupA]
  | cons hd tl ih =>
    obtain ⟨a, b⟩ := hd
    simp only [setA]
    split
    · simp [lookupA]
    · rename_i hne
      simp only [lookupA]
      rw [if_neg hne]
      exact ih

theorem lookupA_setA_ne (d : List (Nat × α)) (k n : Nat) (v : α) (h : ¬k = n) :
    lookupA (setA d k v) n = lookupA d n := by
  induction d with
  | nil => simp [setA, lookupA, h]
  | cons hd tl ih =>
    obtain ⟨a, b⟩ := hd
    simp only [setA]
    split
    · rename_i hak
      simp only [lookupA]
      rw [if_neg (by omega), if_neg (by omega)]
    · simp only [lookupA]
      split
      · rfl
      · exact ih

theorem mem_insertKey (k : EncodedStringVec) (ks : List EncodedStringVec) :
    k ∈ insertKey k ks := by
  unfold insertKey
  split
  · assumption
  · exact List.mem_cons_self k ks

theorem insertKey_not_mem (k : EncodedStringVec) (ks : List EncodedStringVec)
    (h : k ∉ ks) : insertKey k ks = k :: ks := by
  unfold insertKey
  rw [if_neg h]

/-! ## Stage lemmas for PartRDB::write -/

theorem writeInitFile_keys (s : PartRDB) (dbn : DatabaseNumber) :
    (writeInitFile s dbn).keys = s.keys := by
  unfold writeInitFile
  split <;> rfl

theorem writeInitFile_check (s : PartRDB) (dbn : DatabaseNumber) :
    (writeInitFile s dbn).check_duplication = s.check_duplication := by
  unfold writeInitFile
  split <;> rfl

theorem writeInitKeys_check (s : PartRDB) (num : Nat) :
    (writeInitKeys s num).check_duplication = s.check_duplication := by
  unfold writeInitKeys
  split <;> rfl

theorem writeInitKeys_disk (s : PartRDB) (num : Nat) :
    (writeInitKeys s num).disk = s.disk := by
  unfold writeInitKeys
  split <;> rfl

theorem writeInitKeys_files (s : PartRDB) (num : Nat) :
    (writeInitKeys s num).files = s.files := by
  unfold writeInitKeys
  split <;> rfl

theorem writeInitKeys_lookup (s : PartRDB) (num : Nat) :
    lookupA (writeInitKeys s num).keys num = some ((lookupA s.keys num).getD []) := by
  unfold writeInitKeys
  split
  · rename_i hk
    cases hval : lookupA s.keys num
    · rw [hval] at hk
      simp at hk
    · simp [hval]
  · simp only
    rw [lookupA_setA_self]
    rename_i hk
    cases hval : lookupA s.keys num
    · simp
    · rw [hval] at hk
      simp at hk

theorem writeInitKeys_lookup_ne (s : PartRDB) (num n : Nat) (h : ¬num = n) :
    lookupA (writeInitKeys s num).keys n = lookupA s.keys n := by
  unfold writeInitKeys
  split
  · rfl
  · simp only
    rw [lookupA_setA_ne _ _ _ _ h]

/-- The key set of the written database after a non-discarded write. -/
theorem write_keys_lookup (s : PartRDB) (dbn : DatabaseNumber) (rec : Record)
    (h : s.check_duplication = false ∨
      EncodedStringVec.fromEncoded rec.key ∉ (lookupA s.keys dbn.num).getD []) :
    lookupA (s.write dbn rec).keys dbn.num =
      some (insertKey (EncodedStringVec.fromEncoded rec.key)
        ((lookupA s.keys dbn.num).getD [])) := by
  unfold PartRDB.write writeCommit
  have hk2 : lookupA (writeInitKeys (writeInitFile s dbn) dbn.num).keys dbn.num =
      some ((lookupA s.keys dbn.num).getD []) := by
    rw [writeInitKeys_lookup, writeInitFile_keys]
  have hc2 : (writeInitKeys (writeInitFile s dbn) dbn.num).check_duplication =
      s.check_duplication := by
    rw [writeInitKeys_check, writeInitFile_check]
  rw [if_pos]
  · simp only [hk2, Option.getD_some]
    rw [lookupA_setA_self]
  · rw [hc2, hk2]
    simpa using h

/-- C2 (amended): when duplicate checking is enabled, write compares keys by
their lifetime-erased encoded form (variant tag plus payload bytes,
`EncodedStringVec`), not by their decoded string: a record is discarded —
the state is left unchanged — exactly when an identical encoded form is
already in the database's seen-set, and otherwise its serialization is
appended and the encoded key inserted. Two records whose keys decode to the
same string but are encoded differently (e.g. raw vs LZF-compressed) are
NOT treated as duplicates. -/
theorem C2_write_dedup_encoded :
    ∀ (s : PartRDB) (dbn : DatabaseNumber) (rec : Record)
      (ks : List EncodedStringVec),
      s.check_duplication = true →
      dbn.num ∈ s.files →
      lookupA s.keys dbn.num = some ks →
      ((EncodedStringVec.fromEncoded rec.key ∈ ks → s.write dbn rec = s) ∧
       (EncodedStringVec.fromEncoded rec.key ∉ ks →
         (s.write dbn rec).disk =
           setA s.disk dbn.num
             ((lookupA s.disk dbn.num).getD [] ++ serRecord rec) ∧
         (s.write dbn rec).keys =
           setA s.keys dbn.num
             (EncodedStringVec.fromEncoded rec.key :: ks))) := by
  intro s dbn rec ks hcd hmem hks
  have h1 : writeInitFile s dbn = s := by
    unfold writeInitFile
    rw [if_pos hmem]
  have h2 : writeInitKeys s dbn.num = s := by
    unfold writeInitKeys
    rw [if_pos (by simp [hks])]
  have hwr : s.write dbn rec = writeCommit s dbn.num rec := by
    unfold PartRDB.write
    rw [h1, h2]
  constructor
  · intro hkey
    rw [hwr]
    unfold writeCommit
    rw [if_neg]
    intro hor
    rcases hor with hc | hnm
    · rw [hcd] at hc
      cases hc
    · rw [hks] at hnm
      simp only [Option.getD_some] at hnm
      exact hnm hkey
  · intro hkey
    rw [hwr]
    unfold writeCommit
    rw [if_pos (Or.inr (by rw [hks]; simpa using hkey))]
    constructor
    · rfl
    · simp only [hks, Option.getD_some]
      rw [insertKey_not_mem _ _ hkey]

/-- C2 counterexample: with duplicate checking enabled, a raw key and an
LZF-compressed key that decode to the same string `a` are both written —
the second record is not discarded — refuting that discarding happens iff
the decoded string was already seen. -/
theorem C2_counterexample :
    freshStore.check_duplication = true ∧
    stringDecode kRaw = stringDecode kLzf ∧
    lookupA ((freshStore.write dbn0 recRaw).write dbn0 recLzf).disk 0 =
      some ((serDatabaseNumber dbn0 ++ serRecord recRaw) ++ serRecord recLzf) := by
  refine ⟨rfl, by decide, by decide⟩

/-- C2 witness: discarding a repeated identical encoded key at a concrete
state, via the amended theorem. -/
theorem C2_write_dedup_encoded_witness :
    (freshStore.write dbn0 recRaw).write dbn0 recRaw =
      freshStore.write dbn0 recRaw :=
  (C2_write_dedup_encoded (freshStore.write dbn0 recRaw) dbn0 recRaw
    [.Raw [0x61]] (by decide) (by decide) (by decide)).1 (by decide)

/-- C9: PartRDB::new fails with the directory-missing error when the output
path is not an existing directory, and otherwise returns a fresh store with
no open intermediate files, no tracked disk files, and no recorded keys. -/
theorem C9_open :
    (∀ check, PartRDB.new false check = .error .directoryMissing) ∧
    (∀ check, PartRDB.new true check =
      .ok { check_duplication := check, files := [], disk := [], keys := [] }) :=
  ⟨fun _ => rfl, fun _ => rfl⟩

/-- C10: every write inserts the key's encoded form into that database's key
set even when duplicate checking is disabled; a distinct key grows the set
by one entry. -/
theorem C10_nocheck_inserts :
    ∀ (s : PartRDB) (dbn : DatabaseNumber) (rec : Record),
      s.check_duplication = false →
      (EncodedStringVec.fromEncoded rec.key ∈
        (lookupA (s.write dbn rec).keys dbn.num).getD []) ∧
      (EncodedStringVec.fromEncoded rec.key ∉ (lookupA s.keys dbn.num).getD [] →
        ((lookupA (s.write dbn rec).keys dbn.num).getD []).length =
          ((lookupA s.keys dbn.num).getD []).length + 1) := by
  intro s dbn rec hcd
  have hw := write_keys_lookup s dbn rec (Or.inl hcd)
  rw [hw]
  simp only [Option.getD_some]
  constructor
  · exact mem_insertKey _ _
  · intro hnm
    rw [insertKey_not_mem _ _ hnm]
    rfl

/-- C10 witness: a write into a fresh store with checking disabled records
the encoded key, growing the set from 0 to 1 entries. -/
theorem C10_nocheck_inserts_witness :
    (EncodedStringVec.fromEncoded recRaw.key ∈
      (lookupA (((⟨false, [], [], []⟩ : PartRDB).write dbn0 recRaw)).keys
        dbn0.num).getD []) ∧
    ((lookupA (((⟨false, [], [], []⟩ : PartRDB).write dbn0 recRaw)).keys
        dbn0.num).getD []).length =
      ((lookupA (⟨false, [], [], []⟩ : PartRDB).keys dbn0.num).getD []).length + 1 :=
  ⟨(C10_nocheck_inserts ⟨false, [], [], []⟩ dbn0 recRaw rfl).1,
   (C10_nocheck_inserts ⟨false, [], [], []⟩ dbn0 recRaw rfl).2 (by decide)⟩

/-! ## Invariant preservation for the merge claim -/

theorem storeInv_initFile {s : PartRDB} (dbn : DatabaseNumber)
    (h : StoreInv s) :
    StoreInv (writeInitFile s dbn) ∧
    (lookupA (writeInitFile s dbn).disk dbn.num).isSome = true := by
  unfold writeInitFile
  split
  · rename_i hmem
    exact ⟨h, h.1 dbn.num hmem⟩
  · refine ⟨⟨?_, ?_⟩, ?_⟩
    · intro num hnum
      simp only [List.mem_cons] at hnum
      by_cases he : dbn.num = num
      · subst he
        simp [lookupA_setA_self]
      · rw [lookupA_setA_ne _ _ _ _ he]
        rcases hnum with h1 | h1
        · exact absurd h1.symm he
        · exact h.1 num h1
    · intro num bytes hb
      by_cases he : dbn.num = num
      · subst he
        rw [lookupA_setA_self] at hb
        cases hb
        exact ⟨dbn, [], by simp⟩
      · rw [lookupA_setA_ne _ _ _ _ he] at hb
        exact h.2 num bytes hb
    · simp [lookupA_setA_self]

theorem storeInv_initKeys {s : PartRDB} (num : Nat) (h : StoreInv s) :
    StoreInv (writeInitKeys s num) := by
  constructor
  · intro n hn
    rw [writeInitKeys_disk]
    rw [writeInitKeys_files] at hn
    exact h.1 n hn
  · intro n bytes hb
    rw [writeInitKeys_disk] at hb
    exact h.2 n bytes hb

theorem storeInv_commit {s : PartRDB} (num : Nat) (rec : Record)
    (h : StoreInv s) (hdiskn : (lookupA s.disk num).isSome = true) :
    StoreInv (writeCommit s num rec) := by
  unfold writeCommit
  split
  · refine ⟨?_, ?_⟩
    · intro n hn
      simp only at hn ⊢
      by_cases he : num = n
      · subst he
        simp [lookupA_setA_self]
      · rw [lookupA_setA_ne _ _ _ _ he]
        exact h.1 n hn
    · intro n bytes hb
      simp only at hb
      by_cases he : num = n
      · subst he
        rw [lookupA_setA_self] at hb
        cases hb
        cases hold : lookupA s.disk num with
        | none =>
          rw [hold] at hdiskn
          simp at hdiskn
        | some old =>
          obtain ⟨dbn2, recs2, hshape⟩ := h.2 num old hold
          refine ⟨dbn2, recs2 ++ [rec], ?_⟩
          simp only [Option.getD_some, hshape, List.map_append, List.map_cons,
            List.map_nil, List.flatten_append, List.flatten_cons,
            List.flatten_nil, List.append_assoc, List.append_nil]
      · rw [lookupA_setA_ne _ _ _ _ he] at hb
        exact h.2 n bytes hb
  · exact h

theorem storeInv_write {s : PartRDB} (dbn : DatabaseNumber) (rec : Record)
    (h : StoreInv s) : StoreInv (s.write dbn rec) := by
  unfold PartRDB.write
  obtain ⟨h1, hd1⟩ := storeInv_initFile dbn h
  apply storeInv_commit _ _ (storeInv_initKeys _ h1)
  rw [writeInitKeys_disk]
  exact hd1

theorem storeInv_applyWrites {s : PartRDB}
    (ops : List (DatabaseNumber × Record)) (h : StoreInv s) :
    StoreInv (s.applyWrites ops) := by
  induction ops generalizing s with
  | nil => exact h
  | cons op rest ih =>
    obtain ⟨d, r⟩ := op
    exact ih (storeInv_write d r h)

/-- C7: every successful merge writes, in order, the 9 header bytes
`REDIS0006`, then for each database number in the key map (exactly the
numbers that received at least one write) the verbatim contents of its
intermediate file — which, for any state reached by writes from a fresh
store, is a 0xFE database header followed by serialized records — then the
byte 0xFF, then 8 zero bytes; and the reported count is the total number of
bytes written. -/
theorem C7_merge_output :
    (∀ (s : PartRDB) (parts : List (List Nat)) (out : List Nat) (n : Nat),
      partsConcat s.keys s.disk = some parts →
      s.merge = some (out, n) →
      out = serRDBVersion mergeVersion ++ parts.flatten ++ [0xff] ++
        List.replicate 8 0 ∧
      serRDBVersion mergeVersion =
        [0x52, 0x45, 0x44, 0x49, 0x53, 0x30, 0x30, 0x30, 0x36] ∧
      n = out.length) ∧
    (∀ (cd : Bool) (ops : List (DatabaseNumber × Record)) (num : Nat)
      (bytes : List Nat),
      lookupA ((⟨cd, [], [], []⟩ : PartRDB).applyWrites ops).disk num =
        some bytes →
      PartFileShaped bytes) ∧
    (∀ (s : PartRDB) (dbn : DatabaseNumber) (rec : Record) (num : Nat),
      (lookupA (s.write dbn rec).keys num).isSome = true ↔
        (num = dbn.num ∨ (lookupA s.keys num).isSome = true)) := by
  refine ⟨?_, ?_, ?_⟩
  · intro s parts out n hp hm
    unfold PartRDB.merge at hm
    rw [hp] at hm
    cases hm
    refine ⟨rfl, rfl, ?_⟩
    simp only [List.length_append, List.length_flatten, serRDBVersion,
      mergeVersion, List.length_replicate, List.length_cons, List.length_nil]
  · intro cd ops num bytes hb
    have hinv : StoreInv ((⟨cd, [], [], []⟩ : PartRDB).applyWrites ops) := by
      apply storeInv_applyWrites
      constructor
      · intro n hn
        cases hn
      · intro n b hb2
        cases hb2
    exact hinv.2 num bytes hb
  · intro s dbn rec num
    by_cases hn : num = dbn.num
    · subst hn
      constructor
      · intro _
        exact Or.inl rfl
      · intro _
        unfold PartRDB.write writeCommit
        split
        · simp only [lookupA_setA_self, Option.isSome_some]
        · rw [writeInitKeys_lookup]
          rfl
    · have hne : ¬dbn.num = num := fun he => hn he.symm
      have hkeq : lookupA (s.write dbn rec).keys num = lookupA s.keys num := by
        unfold PartRDB.write writeCommit
        split
        · simp only
          rw [lookupA_setA_ne _ _ _ _ hne, writeInitKeys_lookup_ne _ _ _ hne,
            writeInitFile_keys]
        · rw [writeInitKeys_lookup_ne _ _ _ hne, writeInitFile_keys]
      rw [hkeq]
      constructor
      · intro h2
        exact Or.inr h2
      · intro h2
        rcases h2 with h2 | h2
        · exact absurd h2 hn
        · exact h2

/-- C7 witness: merging a store holding one written record for database 0
yields the framed output and the exact byte count. -/
theorem C7_merge_output_witness :
    serRDBVersion mergeVersion ++ (serDatabaseNumber dbn0 ++ serRecord recRaw) ++
        [0xff] ++ List.replicate 8 0 =
      serRDBVersion mergeVersion ++
        ([serDatabaseNumber dbn0 ++ serRecord recRaw] : List (List Nat)).flatten ++
        [0xff] ++ List.replicate 8 0 ∧
    serRDBVersion mergeVersion =
      [0x52, 0x45, 0x44, 0x49, 0x53, 0x30, 0x30, 0x30, 0x36] ∧
    (25 : Nat) = (serRDBVersion mergeVersion ++
      (serDatabaseNumber dbn0 ++ serRecord recRaw) ++ [0xff] ++
      List.replicate 8 0).length := by
  have h := C7_merge_output.1 c7store [serDatabaseNumber dbn0 ++ serRecord recRaw]
    (serRDBVersion mergeVersion ++ (serDatabaseNumber dbn0 ++ serRecord recRaw) ++
      [0xff] ++ List.replicate 8 0) 25 (by decide) (by decide)
  exact ⟨by decide, h.2.1, h.2.2⟩

end RMerger
